import Mathlib

/-!
Verification of the stacked-bar extraction pipeline (`extract_bars_v3.py`).

The Python source is shallowly embedded below.  Images are row-major lists of
rows of RGB pixels with `Nat` channels (numpy `uint8` values are 0..255 and no
arithmetic in the script overflows or goes negative: differences are taken in
`Int`).  The floating-point comparison `np.linalg.norm(p - c) < thr` is modelled
by the exact equivalent `distSq p c < thr²` (for the script's threshold 60.0 the
two are equivalent: the compared quantities are square roots of exact integers,
`sqrt` is monotone, and `float64` rounding cannot cross the `60.0` boundary for
integer radicands below 3600 or at/above 3600).  Fallible code (the
`top_colours[0]` / `top_colours[1]` indexing in `find_bar_colours`, which raises
`IndexError` when fewer than two distinct non-background colours exist) is
modelled with `Except`.  `numpy.unique` returns colours in lexicographic order;
`np.argsort(-counts)` is modelled by a stable sort on descending counts (tie
order among equal counts is unspecified in numpy; no claim depends on it).
OpenCV's `morphologyEx(MORPH_CLOSE)` with the default border value treats
out-of-image pixels as 0 for the dilation and as 1 for the erosion, which is
reflected in the `maskAt` defaults below.
-/

/-- An RGB pixel; channels are 0..255 in the source images. -/
structure Colour where
  r : Nat
  g : Nat
  b : Nat
deriving DecidableEq

/-- Row-major H×W raster of RGB pixels (PixelGrid of the spec). -/
abbrev PixelGrid := List (List Colour)

/-- H×W grid of booleans: candidate bar pixels. -/
abbrev Mask := List (List Bool)

/-- A bounding box `(x1, y1, x2, y2)`, half-open, as built by the script. -/
abbrev Box := Nat × Nat × Nat × Nat

/-- Width of a grid, taken from its first row (rows of an image are uniform). -/
def gridWidth (g : PixelGrid) : Nat := (g.head?.getD []).length

/-- Pixel lookup; `none` when out of bounds. -/
def getPixel (g : PixelGrid) (y x : Nat) : Option Colour := ((g[y]?).getD [])[x]?

/-- Mask lookup; `none` when out of bounds. -/
def maskEntry (m : Mask) (y x : Nat) : Option Bool := ((m[y]?).getD [])[x]?

/-- Error taxonomy of the spec (section 7). -/
inductive ExtractError where
  | insufficientColors
  | noBarsDetected
  | invalidImage
deriving DecidableEq

/-- `find_bar_colours` line 121: a pixel is background iff all three channels
are at least 250 (`np.all(pixels >= 250, axis=1)`). -/
def isBackground (p : Colour) : Bool :=
  decide (250 ≤ p.r) && decide (250 ≤ p.g) && decide (250 ≤ p.b)

/-- `find_bar_colours` lines 119-122: the row-major flattening of the image
with the background pixels masked out (`pixels[mask]`). -/
def nonBgPixels (g : PixelGrid) : List Colour :=
  g.flatten.filter (fun p => !(isBackground p))

/-- The distinct non-background colours (`np.unique` before sorting). -/
def distinctColours (g : PixelGrid) : List Colour := (nonBgPixels g).dedup

/-- Lexicographic order on RGB triples, the order `np.unique` returns rows in. -/
def colourLe (a b : Colour) : Prop :=
  a.r < b.r ∨ (a.r = b.r ∧ (a.g < b.g ∨ (a.g = b.g ∧ a.b ≤ b.b)))

instance : DecidableRel colourLe := fun a b =>
  inferInstanceAs (Decidable (a.r < b.r ∨ (a.r = b.r ∧ (a.g < b.g ∨ (a.g = b.g ∧ a.b ≤ b.b)))))

/-- The distinct non-background colours in `np.unique`'s lexicographic order. -/
def sortedColours (g : PixelGrid) : List Colour :=
  List.insertionSort colourLe (distinctColours g)

/-- Occurrence count of a colour among the non-background pixels. -/
def countColour (g : PixelGrid) (c : Colour) : Nat := (nonBgPixels g).count c

/-- The `colours, counts` pair output of `np.unique(..., return_counts=True)`. -/
def colourTable (g : PixelGrid) : List (Colour × Nat) :=
  (sortedColours g).map (fun c => (c, countColour g c))

/-- Descending-count order used by `np.argsort(-counts)`. -/
def byCountDesc (a b : Colour × Nat) : Prop := b.2 ≤ a.2

instance : DecidableRel byCountDesc := fun a b => Nat.decLe b.2 a.2

instance : IsTotal (Colour × Nat) byCountDesc :=
  ⟨fun a b => (Nat.le_total b.2 a.2).imp id id⟩

instance : IsTrans (Colour × Nat) byCountDesc :=
  ⟨fun _ _ _ hab hbc => Nat.le_trans hbc hab⟩

/-- The colour/count pairs sorted by descending count (`colours[idx]`). -/
def rankedColours (g : PixelGrid) : List (Colour × Nat) :=
  List.insertionSort byCountDesc (colourTable g)

/-- `find_bar_colours` (lines 105-127).  The source returns
`[top_colours[0], top_colours[1]]`; when fewer than two distinct
non-background colours exist that indexing raises `IndexError`, modelled as
`ExtractError.insufficientColors`. -/
def find_bar_colours (g : PixelGrid) : Except ExtractError (Colour × Colour) :=
  match rankedColours g with
  | c1 :: c2 :: _ => .ok (c1.1, c2.1)
  | _ => .error .insufficientColors

/-- Squared Euclidean RGB distance.  The script compares
`np.linalg.norm(image - colour, axis=2) < threshold`; squaring both sides is
exact for the default threshold (see file header). -/
def distSq (p q : Colour) : Int :=
  ((p.r : Int) - q.r) ^ 2 + ((p.g : Int) - q.g) ^ 2 + ((p.b : Int) - q.b) ^ 2

/-- Squared default threshold: `threshold: float = 60.0`, so 3600. -/
def defaultThrSq : Int := 3600

/-- Per-pixel bar test of line 150: close to either reference colour. -/
def barPixel (c1 c2 : Colour) (thrSq : Int) (p : Colour) : Bool :=
  decide (distSq p c1 < thrSq) || decide (distSq p c2 < thrSq)

/-- Lines 148-151: `bar_mask = (diff_ct < threshold) | (diff_le < threshold)`. -/
def buildBarMask (g : PixelGrid) (c1 c2 : Colour) (thrSq : Int) : Mask :=
  g.map (fun row => row.map (barPixel c1 c2 thrSq))

/-- Mask lookup on `Int` coordinates with an out-of-image default, matching
OpenCV's border handling for the default `borderValue` (0 for dilation, 1 for
erosion). -/
def maskAt (m : Mask) (dflt : Bool) (y x : Int) : Bool :=
  if y < 0 ∨ x < 0 then dflt else (((m[y.toNat]?).getD [])[x.toNat]?).getD dflt

/-- Width of a mask, taken from its first row. -/
def maskWidth (m : Mask) : Nat := (m.head?.getD []).length

/-- Dilation by the `cv2.getStructuringElement(cv2.MORPH_RECT, (3, 9))` kernel
(3 wide, 9 tall, anchored at its centre): OR over dy in -4..4, dx in -1..1. -/
def dilate (m : Mask) : Mask :=
  (List.range m.length).map (fun (y : Nat) => (List.range (maskWidth m)).map (fun (x : Nat) =>
    (List.range 9).any (fun (i : Nat) => (List.range 3).any (fun (j : Nat) =>
      maskAt m false ((y : Int) + (i : Int) - 4) ((x : Int) + (j : Int) - 1)))))

/-- Erosion by the same 3×9 rectangular kernel: AND over the neighbourhood. -/
def erode (m : Mask) : Mask :=
  (List.range m.length).map (fun (y : Nat) => (List.range (maskWidth m)).map (fun (x : Nat) =>
    (List.range 9).all (fun (i : Nat) => (List.range 3).all (fun (j : Nat) =>
      maskAt m true ((y : Int) + (i : Int) - 4) ((x : Int) + (j : Int) - 1)))))

/-- Lines 152-153: `cv2.morphologyEx(bar_mask_u8, cv2.MORPH_CLOSE, kernel)`,
a dilation followed by an erosion with the same structuring element. -/
def closeMask (m : Mask) : Mask := erode (dilate m)

/-- Label lookup on `Int` coordinates, `none` when out of the image. -/
def labelAt (ls : List (List (Option Nat))) (y x : Int) : Option Nat :=
  if y < 0 ∨ x < 0 then none else (((ls[y.toNat]?).getD [])[x.toNat]?).getD none

/-- Minimum of two optional labels, ignoring `none`. -/
def minOpt : Option Nat → Option Nat → Option Nat
  | none, b => b
  | some a, none => some a
  | some a, some b => some (min a b)

/-- Initial labelling: each foreground cell gets its own row-major index. -/
def initLabels (m : Mask) : List (List (Option Nat)) :=
  (List.range m.length).map (fun y => (List.range (maskWidth m)).map (fun x =>
    if maskEntry m y x = some true then some (y * maskWidth m + x) else none))

/-- One sweep of minimum-label propagation over the 8-neighbourhood (plus the
cell itself). -/
def propagateOnce (m : Mask) (ls : List (List (Option Nat))) :
    List (List (Option Nat)) :=
  (List.range m.length).map (fun (y : Nat) => (List.range (maskWidth m)).map (fun (x : Nat) =>
    if maskEntry m y x = some true then
      (List.range 3).foldl (fun acc (i : Nat) => (List.range 3).foldl (fun acc2 (j : Nat) =>
        minOpt acc2 (labelAt ls ((y : Int) + (i : Int) - 1) ((x : Int) + (j : Int) - 1))) acc) none
    else none))

/-- Minimum-label propagation run to a fixed point (H·W sweeps suffice: a
label can travel at most one cell per sweep).  This is one of the equivalent
implementations of `cv2.connectedComponentsWithStats(closed, connectivity=8)`
allowed by the spec (section 9): labels are arbitrary, only the per-component
bounding boxes and areas feed the later stages. -/
def propagate (m : Mask) : List (List (Option Nat)) :=
  (List.range (m.length * maskWidth m)).foldl (fun ls _ => propagateOnce m ls)
    (initLabels m)

/-- The cells carrying a given label. -/
def labelledCells (ls : List (List (Option Nat))) (l : Nat) : List (Nat × Nat) :=
  ((List.range ls.length).map (fun y =>
    (List.range ((ls[y]?.getD []).length)).filterMap (fun x =>
      if ((ls[y]?.getD [])[x]?).getD none = some l then some (y, x) else none))).flatten

/-- Smallest element of a list of naturals (0 for the empty list). -/
def natMin : List Nat → Nat
  | [] => 0
  | a :: t => t.foldl min a

/-- Largest element of a list of naturals (0 for the empty list). -/
def natMax : List Nat → Nat
  | [] => 0
  | a :: t => t.foldl max a

/-- Per-component statistics, as in the rows of `cv2` `stats`:
`x, y, w, h, area`. -/
structure CompStat where
  x : Nat
  y : Nat
  w : Nat
  h : Nat
  area : Nat
deriving DecidableEq

/-- Bounding box and area of the cells labelled `l`. -/
def statOf (ls : List (List (Option Nat))) (l : Nat) : CompStat :=
  { x := natMin ((labelledCells ls l).map Prod.snd)
    y := natMin ((labelledCells ls l).map Prod.fst)
    w := natMax ((labelledCells ls l).map Prod.snd) + 1 -
         natMin ((labelledCells ls l).map Prod.snd)
    h := natMax ((labelledCells ls l).map Prod.fst) + 1 -
         natMin ((labelledCells ls l).map Prod.fst)
    area := (labelledCells ls l).length }

/-- The distinct labels present in a labelling. -/
def componentLabels (ls : List (List (Option Nat))) : List Nat :=
  (ls.flatten.filterMap id).dedup

/-- The statistics rows for the connected components of a mask (lines 154-156). -/
def componentStats (m : Mask) : List CompStat :=
  (componentLabels (propagate m)).map (statOf (propagate m))

/-- Line 160: `if w > 100 and h > 100 and area > 5000`. -/
def passFilter (s : CompStat) : Bool :=
  decide (100 < s.w) && decide (100 < s.h) && decide (5000 < s.area)

/-- Lines 159-162: `x1, y1, x2, y2 = x, y, x + w, y + h`. -/
def toBox (s : CompStat) : Box := (s.x, s.y, s.x + s.w, s.y + s.h)

/-- The sort key of line 163: `boxes.sort(key=lambda b: b[0])`. -/
def byX1 (a b : Box) : Prop := a.1 ≤ b.1

instance : DecidableRel byX1 := fun a b => Nat.decLe a.1 b.1

instance : IsTotal Box byX1 := ⟨fun a b => Nat.le_total a.1 b.1⟩

instance : IsTrans Box byX1 := ⟨fun _ _ _ => Nat.le_trans⟩

/-- Lines 157-164: keep the components passing all three thresholds, map them
to boxes and sort by the left edge (Python's `sort` is stable; so is the
insertion sort used here). -/
def filterSortBoxes (stats : List CompStat) : List Box :=
  List.insertionSort byX1 ((stats.filter passFilter).map toBox)

/-- `detect_bar_bounding_boxes` (lines 130-164). -/
def detect_bar_bounding_boxes (g : PixelGrid) (c1 c2 : Colour) (thrSq : Int) :
    List Box :=
  filterSortBoxes (componentStats (closeMask (buildBarMask g c1 c2 thrSq)))

/-- Line 215: `row_pixels = img_arr[row, x1:x2]`. -/
def rowSeg (g : PixelGrid) (row x1 x2 : Nat) : List Colour :=
  (((g[row]?).getD []).drop x1).take (x2 - x1)

/-- Lines 218-224: the row is annotation-bearing iff some pixel of the row
segment has a channel at most 245 (`not (r>245 and g>245 and b>245)`). -/
def annotRow (g : PixelGrid) (x1 x2 row : Nat) : Bool :=
  (rowSeg g row x1 x2).any (fun p =>
    !(decide (245 < p.r) && decide (245 < p.g) && decide (245 < p.b)))

/-- The loop of lines 210-231: offsets walk upward from 1; the loop breaks
when the row index would go negative (`offset > y1`), and each
annotation-bearing row overwrites `new_y1`, so the final value is the topmost
hit.  Arguments after `y1`: remaining iterations, current offset, current
`new_y1`. -/
def scanUp (g : PixelGrid) (x1 x2 y1 : Nat) : Nat → Nat → Nat → Nat
  | 0, _, cur => cur
  | rem + 1, offset, cur =>
    if y1 < offset then cur
    else scanUp g x1 x2 y1 rem (offset + 1)
      (if annotRow g x1 x2 (y1 - offset) then y1 - offset else cur)

/-- The `new_y1` computed for a bar top `y1` and search window `maxUp`. -/
def newTopEdge (g : PixelGrid) (x1 x2 y1 maxUp : Nat) : Nat :=
  scanUp g x1 x2 y1 maxUp 1 y1

/-- Lines 206-208: `max_up = int(min((y2 - y1) * 0.4, 100))`, then raised to
at least 30.  `int((y2 - y1) * 0.4)` equals `2 * h / 5` in exact arithmetic
(`float64` rounding of `h * 0.4` cannot cross an integer for these magnitudes). -/
def maxUpWindow (h : Nat) : Nat := max 30 (min (2 * h / 5) 100)

/-- The adjusted top edge of a bar box when `include_annotation` is set. -/
def extendedTop (g : PixelGrid) (x1 y1 x2 y2 : Nat) : Nat :=
  newTopEdge g x1 x2 y1 (maxUpWindow (y2 - y1))

/-- The per-invocation configuration of the core (spec section 6): the squared
colour-distance threshold and the annotation flag.  The structuring element,
filter minima and window bounds are the constants hardcoded in the script. -/
structure Config where
  thrSq : Int
  includeAnnotation : Bool
deriving DecidableEq

/-- The script's defaults: threshold 60.0 and no annotation extension. -/
def defaultConfig : Config := { thrSq := 3600, includeAnnotation := false }

/-- The geometric core of `save_and_clip_bars` (lines 188-233): find the two
bar colours, detect the boxes, and optionally extend each top edge upward.
An empty `.ok` list is the `NoBarsDetected` outcome (the script prints
"No bar regions detected." and returns). -/
def pipelineRun (g : PixelGrid) (cfg : Config) : Except ExtractError (List Box) :=
  match find_bar_colours g with
  | .error e => .error e
  | .ok (c1, c2) =>
    .ok (if cfg.includeAnnotation then
          (detect_bar_bounding_boxes g c1 c2 cfg.thrSq).map (fun bx =>
            (bx.1, extendedTop g bx.1 bx.2.1 bx.2.2.1 bx.2.2.2, bx.2.2.1, bx.2.2.2))
        else detect_bar_bounding_boxes g c1 c2 cfg.thrSq)

/-- A mask cell that is foreground. -/
def cellTrue (m : Mask) (c : Nat × Nat) : Prop := maskEntry m c.1 c.2 = some true

/-- One step of 8-connectivity between foreground cells (coordinates differ by
at most one in each direction). -/
def adjStep (m : Mask) (a b : Nat × Nat) : Prop :=
  cellTrue m a ∧ cellTrue m b ∧ a ≠ b ∧
  a.1 ≤ b.1 + 1 ∧ b.1 ≤ a.1 + 1 ∧ a.2 ≤ b.2 + 1 ∧ b.2 ≤ a.2 + 1

/-- 8-connected reachability through foreground cells: two cells are in the
same connected component iff one reaches the other. -/
def reach (m : Mask) : Nat × Nat → Nat × Nat → Prop :=
  Relation.ReflTransGen (adjStep m)

/-- The gap-closing fixture of the spec (section 8): a 3-wide vertical bar of
height 200 with an all-false 2-row gap at y = 100. -/
def gapBar : Mask :=
  (List.range 200).map (fun y => List.replicate 3 (decide (y ≠ 100 ∧ y ≠ 101)))

/-- The fully foreground 200×3 mask. -/
def allTrueBar : Mask := List.replicate 200 (List.replicate 3 true)

/-- `crop_white_background` line 89: a pixel is non-(pure-white) iff
`not (r > 250 and g > 250 and b > 250)`, i.e. some channel is at most 250. -/
def nonWhite (p : Colour) : Bool :=
  !(decide (250 < p.r) && decide (250 < p.g) && decide (250 < p.b))

/-- The coordinates `(y, x)` of the non-pure-white pixels, in the scan order of
the nested loops of lines 86-97. -/
def nonWhiteCoords (g : PixelGrid) : List (Nat × Nat) :=
  ((List.range g.length).map (fun y =>
    (List.range ((g[y]?.getD []).length)).filterMap (fun x =>
      match getPixel g y x with
      | some p => if nonWhite p then some (y, x) else none
      | none => none))).flatten

/-- `left`, initialised to `width` and lowered by `if x < left` (line 90-91). -/
def cropLeft (g : PixelGrid) : Nat :=
  (nonWhiteCoords g).foldl (fun a c => min a c.2) (gridWidth g)

/-- `top`, initialised to `height` and lowered by `if y < top`. -/
def cropTop (g : PixelGrid) : Nat :=
  (nonWhiteCoords g).foldl (fun a c => min a c.1) g.length

/-- `right`, initialised to 0 and raised by `if x > right`. -/
def cropRight (g : PixelGrid) : Nat :=
  (nonWhiteCoords g).foldl (fun a c => max a c.2) 0

/-- `bottom`, initialised to 0 and raised by `if y > bottom`. -/
def cropBottom (g : PixelGrid) : Nat :=
  (nonWhiteCoords g).foldl (fun a c => max a c.1) 0

/-- PIL pads with channel value 0 (black) when a crop box leaves the image. -/
def blackPixel : Colour := ⟨0, 0, 0⟩

/-- `img.crop((left, top, right + 1, bottom + 1))` with PIL semantics: pixels
outside the source are filled with black. -/
def cropRegion (g : PixelGrid) (left top right bottom : Nat) : PixelGrid :=
  (List.range (bottom + 1 - top)).map (fun dy =>
    (List.range (right + 1 - left)).map (fun dx =>
      (getPixel g (top + dy) (left + dx)).getD blackPixel))

/-- `crop_white_background` (lines 68-102).  The empty grid models the 0×0
image (a grid with no rows has no width). -/
def crop_white_background (g : PixelGrid) : PixelGrid :=
  if cropRight g < cropLeft g ∨ cropBottom g < cropTop g then g
  else cropRegion g (cropLeft g) (cropTop g) (cropRight g) (cropBottom g)

/-- Pure white pixel, used in the concrete test images. -/
def whiteP : Colour := ⟨255, 255, 255⟩

/-- Pure red pixel. -/
def redP : Colour := ⟨255, 0, 0⟩

/-- Pure blue pixel. -/
def blueP : Colour := ⟨0, 0, 255⟩

/-- A 2×2 all-white image. -/
def whiteImg : PixelGrid := [[whiteP, whiteP], [whiteP, whiteP]]

/-- The synthetic 100×100 image of the spec (section 8): 6000 red pixels,
4000 blue pixels, and the remainder (here zero pixels) white. -/
def grid100 : PixelGrid :=
  List.replicate 60 (List.replicate 100 redP) ++
  List.replicate 40 (List.replicate 100 blueP)

/-! ## Helper lemmas -/

/-- The descending-count sort does not change the number of colour entries. -/
lemma rankedColours_length (g : PixelGrid) :
    (rankedColours g).length = (distinctColours g).length := by
  unfold rankedColours colourTable sortedColours
  rw [List.length_insertionSort, List.length_map, List.length_insertionSort]

/-- With fewer than two distinct non-background colours, `find_bar_colours`
fails: the source indexes `top_colours[1]` (or `top_colours[0]`) out of range. -/
lemma find_bar_colours_insufficient (g : PixelGrid)
    (h : (distinctColours g).length < 2) :
    find_bar_colours g = .error .insufficientColors := by
  unfold find_bar_colours
  rcases hr : rankedColours g with _ | ⟨a, _ | ⟨b, t⟩⟩
  · rfl
  · rfl
  · exfalso
    have hl := rankedColours_length g
    rw [hr] at hl
    simp at hl
    omega

/-- An all-background image has no non-background pixels. -/
lemma nonBgPixels_nil (g : PixelGrid) (h : ∀ p ∈ g.flatten, isBackground p = true) :
    nonBgPixels g = [] := by
  unfold nonBgPixels
  rw [List.filter_eq_nil_iff]
  intro a ha
  simp [h a ha]

/-! ## Claim theorems -/

/-- C2: for every image with fewer than two distinct non-background colours,
`find_bar_colours` fails, and the failure is exactly the `InsufficientColors`
kind (in the script, the out-of-range indexing of the two-colour selection);
it never succeeds with an invented second colour. -/
theorem c2_theorem (g : PixelGrid) (h : (distinctColours g).length < 2) :
    find_bar_colours g = .error .insufficientColors :=
  find_bar_colours_insufficient g h

/-- C2 witness: a 1×2 image with a single non-background colour. -/
theorem c2_witness :
    (distinctColours [[redP, whiteP]]).length < 2 ∧
    find_bar_colours [[redP, whiteP]] = .error .insufficientColors :=
  ⟨by decide, c2_theorem [[redP, whiteP]] (by decide)⟩

/-- C1 counterexample: on the 2×2 all-white image the pipeline does not return
the empty `NoBarsDetected` outcome `.ok []`; it fails in the colour-finding
stage (in the script, an `IndexError` from `top_colours[0]` on an empty array). -/
theorem c1_counterexample :
    (∀ p ∈ whiteImg.flatten, isBackground p = true) ∧
    pipelineRun whiteImg defaultConfig ≠ .ok [] ∧
    pipelineRun whiteImg defaultConfig = .error .insufficientColors := by
  have he : pipelineRun whiteImg defaultConfig = .error .insufficientColors := rfl
  exact ⟨by decide, by simp [he], he⟩

/-- C1 (amended): an all-white input image makes the pipeline fail in the
dominant-colour stage with `InsufficientColors` (the script raises an
`IndexError` there); it never reaches bar detection, so it does not return
`NoBarsDetected` with an empty region list. -/
theorem c1_theorem (g : PixelGrid) (h : ∀ p ∈ g.flatten, isBackground p = true) :
    pipelineRun g defaultConfig = .error .insufficientColors := by
  have h2 : (distinctColours g).length < 2 := by
    unfold distinctColours
    rw [nonBgPixels_nil g h]
    simp
  unfold pipelineRun
  rw [find_bar_colours_insufficient g h2]

/-- C1 witness: the 1×1 all-white image. -/
theorem c1_witness :
    (∀ p ∈ ([[whiteP]] : PixelGrid).flatten, isBackground p = true) ∧
    pipelineRun [[whiteP]] defaultConfig = .error .insufficientColors :=
  ⟨by decide, c1_theorem [[whiteP]] (by decide)⟩

/-- C4: the mask entry at `(y, x)` is a function of that pixel alone, and it is
`true` iff the squared Euclidean RGB distance of the pixel to one of the two
reference colours is strictly below the squared threshold (for the default
threshold 60.0 this is exactly `distance < 60.0`). -/
theorem c4_theorem (g : PixelGrid) (c1 c2 : Colour) (thrSq : Int) (y x : Nat)
    (p : Colour) (h : getPixel g y x = some p) :
    maskEntry (buildBarMask g c1 c2 thrSq) y x = some (barPixel c1 c2 thrSq p) ∧
    (barPixel c1 c2 thrSq p = true ↔
      (distSq p c1 < thrSq ∨ distSq p c2 < thrSq)) := by
  constructor
  · unfold getPixel at h
    rcases hy : g[y]? with _ | row
    · rw [hy] at h
      simp at h
    · rw [hy] at h
      simp only [Option.getD_some] at h
      unfold maskEntry buildBarMask
      rw [List.getElem?_map, hy]
      simp [List.getElem?_map, h]
  · unfold barPixel
    simp

/-- C4 witness: a concrete 1×1 image and the default threshold. -/
theorem c4_witness :
    getPixel [[redP]] 0 0 = some redP ∧
    (maskEntry (buildBarMask [[redP]] redP blueP defaultThrSq) 0 0 =
      some (barPixel redP blueP defaultThrSq redP) ∧
      (barPixel redP blueP defaultThrSq redP = true ↔
        (distSq redP redP < defaultThrSq ∨ distSq redP blueP < defaultThrSq))) :=
  ⟨rfl, c4_theorem [[redP]] redP blueP defaultThrSq 0 0 redP rfl⟩

/-- C9: the pipeline is deterministic — it is a pure function of the image and
the configuration, so two runs give identical results, both at the level of the
full pipeline and of `detect_bar_bounding_boxes`. -/
theorem c9_theorem :
    ∀ (g : PixelGrid) (cfg : Config),
      pipelineRun g cfg = pipelineRun g cfg ∧
      ∀ (c1 c2 : Colour) (thrSq : Int),
        detect_bar_bounding_boxes g c1 c2 thrSq =
          detect_bar_bounding_boxes g c1 c2 thrSq :=
  fun _ _ => ⟨rfl, fun _ _ _ => rfl⟩

/-- C6 counterexample: with the default thresholds, components at x-ranges
[10,60], [200,260] and [100,160] have bounding-box widths 50, 60 and 60, all
at most 100, so (taking heights and areas that pass the other thresholds) the
filter discards all three and the returned list is empty — they are not
returned in the order 10, 100, 200. -/
theorem c6_counterexample :
    filterSortBoxes [⟨10, 0, 50, 150, 6000⟩, ⟨200, 0, 60, 150, 6500⟩,
      ⟨100, 0, 60, 150, 6500⟩] = [] ∧
    (filterSortBoxes [⟨10, 0, 50, 150, 6000⟩, ⟨200, 0, 60, 150, 6500⟩,
      ⟨100, 0, 60, 150, 6500⟩]).map (fun bx => bx.1) ≠ [10, 100, 200] := by
  constructor
  · decide
  · decide

/-- C6 (amended): the returned region list contains exactly the components
whose width is strictly greater than 100, height strictly greater than 100 and
area strictly greater than 5000 (failing any one threshold discards the
component), and the survivors are ordered ascending by their left edge x1.  A
20×20 swatch is discarded while a 150×150 bar survives, and wide-enough bars
starting at x = 10, 100, 200 come back in that order; the narrow components at
x-ranges [10,60], [200,260], [100,160] are discarded by the width threshold. -/
theorem c6_theorem (stats : List CompStat) :
    (∀ bx : Box, bx ∈ filterSortBoxes stats ↔
      ∃ s, s ∈ stats ∧ passFilter s = true ∧ bx = toBox s) ∧
    (filterSortBoxes stats).Pairwise byX1 := by
  constructor
  · intro bx
    unfold filterSortBoxes
    rw [(List.perm_insertionSort byX1 _).mem_iff]
    constructor
    · intro h
      rcases List.mem_map.mp h with ⟨s, hs, rfl⟩
      rcases List.mem_filter.mp hs with ⟨h1, h2⟩
      exact ⟨s, h1, h2, rfl⟩
    · rintro ⟨s, h1, h2, rfl⟩
      exact List.mem_map_of_mem _ (List.mem_filter.mpr ⟨h1, h2⟩)
  · exact List.sorted_insertionSort byX1 _

/-- C6 witness: a 20×20 swatch (area 400) is dropped, a 150×150 bar (area
22500) survives, and three surviving bars given in the order 10, 200, 100 come
back ordered 10, 100, 200. -/
theorem c6_witness :
    toBox ⟨10, 0, 150, 150, 22500⟩ ∈
      filterSortBoxes [⟨40, 40, 20, 20, 400⟩, ⟨10, 0, 150, 150, 22500⟩] ∧
    filterSortBoxes [⟨40, 40, 20, 20, 400⟩, ⟨10, 0, 150, 150, 22500⟩] =
      [(10, 0, 160, 150)] ∧
    (filterSortBoxes [⟨10, 0, 150, 150, 22500⟩, ⟨200, 0, 150, 150, 22500⟩,
      ⟨100, 0, 150, 150, 22500⟩]).map (fun bx => bx.1) = [10, 100, 200] := by
  refine ⟨((c6_theorem _).1 _).mpr ⟨⟨10, 0, 150, 150, 22500⟩, ?_, ?_, ?_⟩, ?_, ?_⟩
  · decide
  · decide
  · decide
  · decide
  · decide

/-- The scan loop only reads the annotation rows of the window: if two images
agree on every row the loop can read, the scans agree. -/
lemma scanUp_congr (g g' : PixelGrid) (x1 x2 y1 : Nat) :
    ∀ (rem offset cur : Nat),
      (∀ k, offset ≤ k → k < offset + rem → k ≤ y1 →
        annotRow g x1 x2 (y1 - k) = annotRow g' x1 x2 (y1 - k)) →
      scanUp g x1 x2 y1 rem offset cur = scanUp g' x1 x2 y1 rem offset cur := by
  intro rem
  induction rem with
  | zero => intro offset cur _; rfl
  | succ n ih =>
    intro offset cur h
    by_cases hy : y1 < offset
    · simp [scanUp, hy]
    · simp only [scanUp, hy, if_false]
      rw [h offset le_rfl (by omega) (by omega)]
      exact ih (offset + 1) _ (fun k hk1 hk2 hk3 => h k (by omega) (by omega) hk3)

/-- Behaviour of the scan loop: either no offset in the processed range hits an
annotation-bearing row and the accumulator is returned unchanged, or the
result is the row of the largest hitting offset (the topmost hit), with no hit
beyond it. -/
lemma scanUp_spec (g : PixelGrid) (x1 x2 y1 : Nat) :
    ∀ (rem offset cur : Nat),
      (scanUp g x1 x2 y1 rem offset cur = cur ∧
        ∀ k, offset ≤ k → k < offset + rem → k ≤ y1 →
          annotRow g x1 x2 (y1 - k) = false) ∨
      (∃ k, offset ≤ k ∧ k < offset + rem ∧ k ≤ y1 ∧
        annotRow g x1 x2 (y1 - k) = true ∧
        scanUp g x1 x2 y1 rem offset cur = y1 - k ∧
        ∀ k2, k < k2 → k2 < offset + rem → k2 ≤ y1 →
          annotRow g x1 x2 (y1 - k2) = false) := by
  intro rem
  induction rem with
  | zero =>
    intro offset cur
    left
    exact ⟨rfl, fun k h1 h2 _ => absurd h2 (by omega)⟩
  | succ n ih =>
    intro offset cur
    by_cases hy : y1 < offset
    · left
      refine ⟨by simp [scanUp, hy], fun k h1 _ h3 => absurd h3 (by omega)⟩
    · have hstep : scanUp g x1 x2 y1 (n + 1) offset cur =
          scanUp g x1 x2 y1 n (offset + 1)
            (if annotRow g x1 x2 (y1 - offset) then y1 - offset else cur) := by
        simp [scanUp, hy]
      by_cases ha : annotRow g x1 x2 (y1 - offset) = true
      · rcases ih (offset + 1) (y1 - offset) with ⟨heq, hnone⟩ |
          ⟨k, hk1, hk2, hk3, hk4, hk5, hk6⟩
        · right
          refine ⟨offset, le_rfl, by omega, by omega, ha, ?_, ?_⟩
          · rw [hstep, if_pos ha]
            exact heq
          · intro k2 h1 h2 h3
            exact hnone k2 (by omega) (by omega) h3
        · right
          refine ⟨k, by omega, by omega, hk3, hk4, ?_, ?_⟩
          · rw [hstep, if_pos ha]
            exact hk5
          · intro k2 h1 h2 h3
            exact hk6 k2 h1 (by omega) h3
      · have ha2 : annotRow g x1 x2 (y1 - offset) = false := by
          revert ha
          cases annotRow g x1 x2 (y1 - offset) <;> simp
        rcases ih (offset + 1) cur with ⟨heq, hnone⟩ |
          ⟨k, hk1, hk2, hk3, hk4, hk5, hk6⟩
        · left
          constructor
          · rw [hstep, if_neg ha]
            exact heq
          · intro k h1 h2 h3
            rcases Nat.eq_or_lt_of_le h1 with rfl | hlt
            · exact ha2
            · exact hnone k (by omega) (by omega) h3
        · right
          refine ⟨k, by omega, by omega, hk3, hk4, ?_, ?_⟩
          · rw [hstep, if_neg ha]
            exact hk5
          · intro k2 h1 h2 h3
            exact hk6 k2 h1 (by omega) h3

/-- C8: with annotation extension enabled, the new top edge is the smallest
row index inside the upward window (rows `r` with `r < y1` and
`y1 ≤ r + maxUp`, i.e. at most `maxUp` rows above the bar top) whose segment
over `x1..x2` contains a pixel with some channel at most 245; background rows
met on the way neither stop nor reset the scan, and when no row of the window
qualifies the top edge is returned unchanged. -/
theorem c8_theorem (g : PixelGrid) (x1 x2 y1 maxUp : Nat) :
    ((∃ r, r < y1 ∧ y1 ≤ r + maxUp ∧ annotRow g x1 x2 r = true) →
      (newTopEdge g x1 x2 y1 maxUp < y1 ∧
       y1 ≤ newTopEdge g x1 x2 y1 maxUp + maxUp ∧
       annotRow g x1 x2 (newTopEdge g x1 x2 y1 maxUp) = true ∧
       ∀ r, r < y1 → y1 ≤ r + maxUp → annotRow g x1 x2 r = true →
         newTopEdge g x1 x2 y1 maxUp ≤ r)) ∧
    ((∀ r, r < y1 → y1 ≤ r + maxUp → annotRow g x1 x2 r = false) →
      newTopEdge g x1 x2 y1 maxUp = y1) := by
  have hs := scanUp_spec g x1 x2 y1 maxUp 1 y1
  constructor
  · rintro ⟨r, hr1, hr2, hr3⟩
    rcases hs with ⟨heq, hnone⟩ | ⟨k, hk1, hk2, hk3, hk4, hk5, hk6⟩
    · exfalso
      have hf := hnone (y1 - r) (by omega) (by omega) (by omega)
      rw [show y1 - (y1 - r) = r by omega] at hf
      rw [hf] at hr3
      exact absurd hr3 (by decide)
    · unfold newTopEdge
      rw [hk5]
      refine ⟨by omega, by omega, hk4, ?_⟩
      intro r2 h1 h2 h3
      by_contra hcon
      push_neg at hcon
      have hf := hk6 (y1 - r2) (by omega) (by omega) (by omega)
      rw [show y1 - (y1 - r2) = r2 by omega] at hf
      rw [hf] at h3
      exact absurd h3 (by decide)
  · intro hall
    rcases hs with ⟨heq, _⟩ | ⟨k, hk1, hk2, hk3, hk4, _, _⟩
    · exact heq
    · exfalso
      have hf := hall (y1 - k) (by omega) (by omega)
      rw [hf] at hk4
      exact absurd hk4 (by decide)

/-- C8 witness: a 3×1 image with a dark pixel two rows above the bar top
`y1 = 2`; the scan lands on row 0. -/
theorem c8_witness :
    newTopEdge [[blackPixel], [whiteP], [whiteP]] 0 1 2 30 < 2 ∧
    annotRow [[blackPixel], [whiteP], [whiteP]] 0 1
      (newTopEdge [[blackPixel], [whiteP], [whiteP]] 0 1 2 30) = true := by
  have h := (c8_theorem [[blackPixel], [whiteP], [whiteP]] 0 1 2 30).1
    ⟨0, by decide, by decide, by decide⟩
  exact ⟨h.1, h.2.2.1⟩

/-- C7: the upward search window is `clamp(0.4 · h, 30, 100)` (with the
source's truncation of `0.4 · h` to an integer, `2 * h / 5`), it is exactly 30
for a bar of height 50, and the scan never examines any row more than that
many rows above the bar top: the result depends only on the rows inside the
window. -/
theorem c7_theorem :
    (∀ h : Nat, maxUpWindow h = min 100 (max 30 (2 * h / 5))) ∧
    maxUpWindow 50 = 30 ∧
    (∀ (g g' : PixelGrid) (x1 x2 y1 y2 : Nat),
      (∀ r, r < y1 → y1 ≤ r + maxUpWindow (y2 - y1) →
        rowSeg g r x1 x2 = rowSeg g' r x1 x2) →
      extendedTop g x1 y1 x2 y2 = extendedTop g' x1 y1 x2 y2) := by
  refine ⟨?_, by decide, ?_⟩
  · intro h
    unfold maxUpWindow
    omega
  · intro g g' x1 x2 y1 y2 hagree
    unfold extendedTop newTopEdge
    apply scanUp_congr
    intro k h1 h2 h3
    unfold annotRow
    rw [hagree (y1 - k) (by omega) (by omega)]

/-- C7 witness: two 41×1 images that differ only in row 0, far above the
window of a height-1 bar topped at `y1 = 40` (window 30, rows 10..39): the
extended tops agree, and the height-50 window is 30. -/
theorem c7_witness :
    extendedTop ([blackPixel] :: List.replicate 40 [whiteP]) 0 40 1 41 =
      extendedTop ([whiteP] :: List.replicate 40 [whiteP]) 0 40 1 41 ∧
    maxUpWindow 50 = 30 := by
  constructor
  · apply c7_theorem.2.2
    intro r h1 h2
    rcases r with _ | r2
    · exfalso
      revert h2
      decide
    · rfl
  · exact c7_theorem.2.1

/-- The gap fixture has 200 rows. -/
lemma gapBar_length : gapBar.length = 200 := by
  unfold gapBar
  simp

set_option maxRecDepth 4000 in
/-- The gap fixture is 3 pixels wide. -/
lemma gapBar_width : maskWidth gapBar = 3 := by decide

/-- In-image lookups of the gap fixture outside the two gap rows are true. -/
lemma gapBar_maskAt (y x : Nat) (hy : y < 200) (hx : x < 3) (h1 : y ≠ 100)
    (h2 : y ≠ 101) : maskAt gapBar false (y : Int) (x : Int) = true := by
  unfold maskAt
  rw [if_neg (by omega), Int.toNat_natCast, Int.toNat_natCast]
  unfold gapBar
  rw [List.getElem?_map, List.getElem?_range hy, Option.map_some', Option.getD_some,
    List.getElem?_replicate, if_pos hx, Option.getD_some]
  simp [h1, h2]

/-- The previous lemma restated for arbitrary `Int` coordinates known to equal
natural coordinates, convenient at kernel-offset call sites. -/
lemma gapBar_maskAt_eq (a b : Int) (y x : Nat) (ha : a = (y : Int))
    (hb : b = (x : Int)) (hy : y < 200) (hx : x < 3) (h1 : y ≠ 100)
    (h2 : y ≠ 101) : maskAt gapBar false a b = true := by
  rw [ha, hb]
  exact gapBar_maskAt y x hy hx h1 h2

/-- Every lookup of the all-true mask with default `true` is true. -/
lemma allTrueBar_maskAt (a b : Int) : maskAt allTrueBar true a b = true := by
  unfold maskAt
  split
  · rfl
  · unfold allTrueBar
    rw [List.getElem?_replicate]
    split
    · rw [Option.getD_some, List.getElem?_replicate]
      split
      · rfl
      · rfl
    · rfl

/-- Row lookup in the all-true mask. -/
lemma allTrueBar_getElem (n : Nat) :
    allTrueBar[n]? = if n < 200 then some (List.replicate 3 true) else none := by
  unfold allTrueBar
  rw [List.getElem?_replicate]

/-- Every cell of the dilated gap fixture is true: the two gap rows see the
true rows 99 and 102 within the 9-tall kernel. -/
lemma dilate_gapBar_entry (y x : Nat) (hy : y < 200) (hx : x < 3) :
    ((List.range 9).any (fun (i : Nat) => (List.range 3).any (fun (j : Nat) =>
      maskAt gapBar false ((y : Int) + (i : Int) - 4) ((x : Int) + (j : Int) - 1)))) = true := by
  rw [List.any_eq_true]
  by_cases h100 : y = 100
  · refine ⟨3, by simp, ?_⟩
    rw [List.any_eq_true]
    refine ⟨1, by simp, ?_⟩
    exact gapBar_maskAt_eq _ _ 99 x (by omega) (by omega) (by omega) hx (by omega) (by omega)
  · by_cases h101 : y = 101
    · refine ⟨5, by simp, ?_⟩
      rw [List.any_eq_true]
      refine ⟨1, by simp, ?_⟩
      exact gapBar_maskAt_eq _ _ 102 x (by omega) (by omega) (by omega) hx (by omega) (by omega)
    · refine ⟨4, by simp, ?_⟩
      rw [List.any_eq_true]
      refine ⟨1, by simp, ?_⟩
      exact gapBar_maskAt_eq _ _ y x (by omega) (by omega) hy hx h100 h101

/-- Dilating the gap fixture fills the 2-row gap (and everything else). -/
lemma dilate_gapBar : dilate gapBar = allTrueBar := by
  unfold dilate
  simp only [gapBar_length, gapBar_width]
  apply List.ext_getElem?
  intro n
  rw [allTrueBar_getElem]
  simp only [List.getElem?_map]
  by_cases hn : n < 200
  · simp only [List.getElem?_range hn, Option.map_some', if_pos hn]
    congr 1
    apply List.ext_getElem?
    intro m
    simp only [List.getElem?_map, List.getElem?_replicate]
    by_cases hm : m < 3
    · simp only [List.getElem?_range hm, Option.map_some', if_pos hm]
      congr 1
      exact dilate_gapBar_entry n m hn hm
    · rw [List.getElem?_eq_none (show (List.range 3).length ≤ m by simpa using hm)]
      rw [if_neg hm]
      rfl
  · rw [List.getElem?_eq_none (show (List.range 200).length ≤ n by simpa using hn)]
    rw [if_neg hn]
    rfl

/-- Eroding the all-true mask leaves it unchanged (out-of-image neighbours
default to true for the erosion). -/
lemma erode_allTrueBar : erode allTrueBar = allTrueBar := by
  unfold erode
  have hl : allTrueBar.length = 200 := by
    unfold allTrueBar
    rw [List.length_replicate]
  have hw : maskWidth allTrueBar = 3 := rfl
  simp only [hl, hw]
  apply List.ext_getElem?
  intro n
  rw [allTrueBar_getElem]
  simp only [List.getElem?_map]
  by_cases hn : n < 200
  · simp only [List.getElem?_range hn, Option.map_some', if_pos hn]
    congr 1
    apply List.ext_getElem?
    intro m
    simp only [List.getElem?_map, List.getElem?_replicate]
    by_cases hm : m < 3
    · simp only [List.getElem?_range hm, Option.map_some', if_pos hm]
      congr 1
      simp only [List.all_eq_true]
      intro i _ j _
      exact allTrueBar_maskAt _ _
    · rw [List.getElem?_eq_none (show (List.range 3).length ≤ m by simpa using hm)]
      rw [if_neg hm]
      rfl
  · rw [List.getElem?_eq_none (show (List.range 200).length ≤ n by simpa using hn)]
    rw [if_neg hn]
    rfl

/-- The morphological closing of the gap fixture is the full 200×3 rectangle. -/
lemma closeMask_gapBar : closeMask gapBar = allTrueBar := by
  unfold closeMask
  rw [dilate_gapBar, erode_allTrueBar]

/-- All in-range cells of the all-true mask are foreground. -/
lemma allTrueBar_cellTrue (y x : Nat) (hy : y < 200) (hx : x < 3) :
    cellTrue allTrueBar (y, x) := by
  unfold cellTrue maskEntry allTrueBar
  rw [List.getElem?_replicate, if_pos hy, Option.getD_some,
    List.getElem?_replicate, if_pos hx]

/-- Foreground cells of the all-true mask are in range. -/
lemma allTrueBar_cellTrue_bound (a : Nat × Nat) (h : cellTrue allTrueBar a) :
    a.1 < 200 ∧ a.2 < 3 := by
  unfold cellTrue maskEntry allTrueBar at h
  rw [List.getElem?_replicate] at h
  by_cases h1 : a.1 < 200
  · rw [if_pos h1, Option.getD_some, List.getElem?_replicate] at h
    by_cases h2 : a.2 < 3
    · exact ⟨h1, h2⟩
    · rw [if_neg h2] at h
      exact absurd h (by simp)
  · rw [if_neg h1] at h
    exact absurd h (by simp)

/-- The 8-adjacency step relation is symmetric. -/
lemma adjStep_symm (m : Mask) : Symmetric (adjStep m) := by
  rintro a b ⟨c1, c2, hne, d1, d2, d3, d4⟩
  exact ⟨c2, c1, hne.symm, d2, d1, d4, d3⟩

/-- The origin reaches any cell of column 0 of the all-true mask. -/
lemma allTrueBar_reach_col : ∀ y, y < 200 → reach allTrueBar (0, 0) (y, 0) := by
  intro y
  induction y with
  | zero => exact fun _ => Relation.ReflTransGen.refl
  | succ n ih =>
    intro h
    refine Relation.ReflTransGen.tail (ih (by omega)) ?_
    refine ⟨allTrueBar_cellTrue n 0 (by omega) (by omega),
      allTrueBar_cellTrue (n + 1) 0 (by omega) (by omega), ?_, by omega, by omega,
      by omega, by omega⟩
    simp [Prod.ext_iff]

/-- The origin reaches every cell of the all-true mask. -/
lemma allTrueBar_reach : ∀ y x, y < 200 → x < 3 → reach allTrueBar (0, 0) (y, x) := by
  intro y x hy hx
  have h0 := allTrueBar_reach_col y hy
  have s1 : adjStep allTrueBar (y, 0) (y, 1) := by
    refine ⟨allTrueBar_cellTrue y 0 hy (by omega),
      allTrueBar_cellTrue y 1 hy (by omega), ?_, by omega, by omega, by omega, by omega⟩
    simp [Prod.ext_iff]
  have s2 : adjStep allTrueBar (y, 1) (y, 2) := by
    refine ⟨allTrueBar_cellTrue y 1 hy (by omega),
      allTrueBar_cellTrue y 2 hy (by omega), ?_, by omega, by omega, by omega, by omega⟩
    simp [Prod.ext_iff]
  interval_cases x
  · exact h0
  · exact Relation.ReflTransGen.tail h0 s1
  · exact Relation.ReflTransGen.tail (Relation.ReflTransGen.tail h0 s1) s2

/-- C5: closing the 200-tall vertical bar with the 2-row gap at y = 100 yields
a mask with exactly one 8-connected component (it is nonempty and all
foreground cells are mutually reachable), and that component's bounding box
spans the full 200-pixel height: row 0 and row 199 are occupied and no
foreground cell lies outside rows 0..199. -/
theorem c5_theorem :
    cellTrue (closeMask gapBar) (0, 0) ∧
    (∀ a b : Nat × Nat, cellTrue (closeMask gapBar) a →
      cellTrue (closeMask gapBar) b → reach (closeMask gapBar) a b) ∧
    (∃ x, cellTrue (closeMask gapBar) (0, x)) ∧
    (∃ x, cellTrue (closeMask gapBar) (199, x)) ∧
    (∀ a : Nat × Nat, cellTrue (closeMask gapBar) a → a.1 < 200 ∧ a.2 < 3) := by
  rw [closeMask_gapBar]
  refine ⟨allTrueBar_cellTrue 0 0 (by omega) (by omega), ?_,
    ⟨0, allTrueBar_cellTrue 0 0 (by omega) (by omega)⟩,
    ⟨0, allTrueBar_cellTrue 199 0 (by omega) (by omega)⟩,
    allTrueBar_cellTrue_bound⟩
  intro a b ha hb
  obtain ⟨h1, h2⟩ := allTrueBar_cellTrue_bound a ha
  obtain ⟨h3, h4⟩ := allTrueBar_cellTrue_bound b hb
  exact Relation.ReflTransGen.trans
    ((Relation.ReflTransGen.symmetric (adjStep_symm allTrueBar))
      (allTrueBar_reach a.1 a.2 h1 h2))
    (allTrueBar_reach b.1 b.2 h3 h4)

/-- C5 witness: the top-left cell of the closed mask is foreground and reaches
the bottom-right cell (the component spans the full height). -/
theorem c5_witness :
    cellTrue (closeMask gapBar) (0, 0) ∧
    reach (closeMask gapBar) (0, 0) (199, 2) := by
  have h1 : cellTrue (closeMask gapBar) (0, 0) := by
    rw [closeMask_gapBar]
    exact allTrueBar_cellTrue 0 0 (by omega) (by omega)
  have h2 : cellTrue (closeMask gapBar) (199, 2) := by
    rw [closeMask_gapBar]
    exact allTrueBar_cellTrue 199 2 (by omega) (by omega)
  exact ⟨h1, c5_theorem.2.1 (0, 0) (199, 2) h1 h2⟩

/-- Membership in the lexicographically sorted colour list is membership in the
distinct colour list. -/
lemma mem_sortedColours (g : PixelGrid) (c : Colour) :
    c ∈ sortedColours g ↔ c ∈ distinctColours g :=
  (List.perm_insertionSort colourLe (distinctColours g)).mem_iff

/-- The sorted distinct colours have no duplicates. -/
lemma sortedColours_nodup (g : PixelGrid) : (sortedColours g).Nodup :=
  (List.perm_insertionSort colourLe (distinctColours g)).symm.nodup
    (List.nodup_dedup (nonBgPixels g))

/-- The colour/count table has no duplicate entries. -/
lemma colourTable_nodup (g : PixelGrid) : (colourTable g).Nodup :=
  (sortedColours_nodup g).map (fun _ _ h => congrArg Prod.fst h)

/-- The ranked colour list has no duplicate entries. -/
lemma rankedColours_nodup (g : PixelGrid) : (rankedColours g).Nodup :=
  (List.perm_insertionSort byCountDesc (colourTable g)).symm.nodup (colourTable_nodup g)

/-- Membership in the ranked list is membership in the table. -/
lemma mem_rankedColours (g : PixelGrid) (p : Colour × Nat) :
    p ∈ rankedColours g ↔ p ∈ colourTable g :=
  (List.perm_insertionSort byCountDesc (colourTable g)).mem_iff

/-- The table's entries are exactly the distinct colours with their counts. -/
lemma mem_colourTable (g : PixelGrid) (p : Colour × Nat) :
    p ∈ colourTable g ↔ p.1 ∈ distinctColours g ∧ p.2 = countColour g p.1 := by
  unfold colourTable
  rw [List.mem_map]
  constructor
  · rintro ⟨c, hc, rfl⟩
    exact ⟨(mem_sortedColours g c).mp hc, rfl⟩
  · rintro ⟨h1, h2⟩
    exact ⟨p.1, (mem_sortedColours g p.1).mpr h1, Prod.ext rfl h2.symm⟩

/-- The ranked list is sorted by descending count. -/
lemma rankedColours_sorted (g : PixelGrid) :
    (rankedColours g).Pairwise byCountDesc :=
  List.sorted_insertionSort byCountDesc (colourTable g)

/-- C3: with at least two distinct non-background colours, `find_bar_colours`
succeeds and returns two distinct non-background colours in descending order
of occurrence count (counts taken over exactly the pixels that are not
near-white, a pixel being background iff all three channels are at least 250):
the first colour's count dominates every distinct colour's count, and the
second's dominates every distinct colour other than the first. -/
theorem c3_theorem (g : PixelGrid) (h2 : 2 ≤ (distinctColours g).length) :
    ∃ c1 c2 : Colour,
      find_bar_colours g = .ok (c1, c2) ∧
      c1 ≠ c2 ∧
      c1 ∈ distinctColours g ∧ c2 ∈ distinctColours g ∧
      countColour g c2 ≤ countColour g c1 ∧
      (∀ c ∈ distinctColours g, countColour g c ≤ countColour g c1) ∧
      (∀ c ∈ distinctColours g, c ≠ c1 → countColour g c ≤ countColour g c2) := by
  have hlen : 2 ≤ (rankedColours g).length := by
    rw [rankedColours_length]
    exact h2
  obtain ⟨a, b, rest, hr⟩ : ∃ a b rest, rankedColours g = a :: b :: rest := by
    rcases hrr : rankedColours g with _ | ⟨a, _ | ⟨b, rest⟩⟩
    · rw [hrr] at hlen
      simp at hlen
    · rw [hrr] at hlen
      simp at hlen
    · exact ⟨a, b, rest, rfl⟩
  have haR : a ∈ rankedColours g := by
    rw [hr]
    exact List.mem_cons_self a _
  have hbR : b ∈ rankedColours g := by
    rw [hr]
    exact List.mem_cons_of_mem a (List.mem_cons_self b rest)
  have haD := (mem_colourTable g a).mp ((mem_rankedColours g a).mp haR)
  have hbD := (mem_colourTable g b).mp ((mem_rankedColours g b).mp hbR)
  have hsorted := rankedColours_sorted g
  rw [hr] at hsorted
  have harest : ∀ p ∈ b :: rest, byCountDesc a p := (List.pairwise_cons.mp hsorted).1
  have hbrest : ∀ p ∈ rest, byCountDesc b p :=
    (List.pairwise_cons.mp (List.pairwise_cons.mp hsorted).2).1
  have hnd := rankedColours_nodup g
  rw [hr] at hnd
  have hane : a ≠ b := by
    intro hcon
    apply (List.nodup_cons.mp hnd).1
    rw [hcon]
    exact List.mem_cons_self b rest
  have hc1c2 : a.1 ≠ b.1 := by
    intro hcon
    apply hane
    refine Prod.ext hcon ?_
    rw [haD.2, hbD.2, hcon]
  have hmemAll : ∀ c ∈ distinctColours g, (c, countColour g c) ∈ rankedColours g :=
    fun c hc => (mem_rankedColours g _).mpr ((mem_colourTable g _).mpr ⟨hc, rfl⟩)
  refine ⟨a.1, b.1, by unfold find_bar_colours; rw [hr], hc1c2, haD.1, hbD.1, ?_, ?_, ?_⟩
  · rw [← haD.2, ← hbD.2]
    exact harest b (List.mem_cons_self b rest)
  · intro c hc
    have hin := hmemAll c hc
    rw [hr] at hin
    rw [← haD.2]
    rcases List.mem_cons.mp hin with heq | hin2
    · exact le_of_eq (congrArg Prod.snd heq)
    · exact harest _ hin2
  · intro c hc hne
    have hin := hmemAll c hc
    rw [hr] at hin
    rw [← hbD.2]
    rcases List.mem_cons.mp hin with heq | hin2
    · exact absurd (congrArg Prod.fst heq) hne
    · rcases List.mem_cons.mp hin2 with heq2 | hin3
      · exact le_of_eq (congrArg Prod.snd heq2)
      · exact hbrest _ hin3

/-- Flattening a replicated row gives a replicated pixel run. -/
lemma replicate_flatten (n m : Nat) (a : Colour) :
    (List.replicate n (List.replicate m a)).flatten = List.replicate (n * m) a := by
  induction n with
  | zero =>
    rw [Nat.zero_mul]
    rfl
  | succ k ih =>
    rw [List.replicate_succ, List.flatten_cons, ih, ← List.replicate_add]
    congr 1
    ring

/-- The non-background pixels of the synthetic chart: 6000 red then 4000 blue. -/
lemma grid100_nonBg :
    nonBgPixels grid100 = List.replicate 6000 redP ++ List.replicate 4000 blueP := by
  unfold nonBgPixels grid100
  rw [List.flatten_append, replicate_flatten, replicate_flatten, List.filter_append,
    List.filter_replicate, List.filter_replicate, if_pos (by decide), if_pos (by decide)]

/-- Deduplicating a nonempty constant run keeps one element. -/
lemma dedup_replicate (k : Nat) (a : Colour) :
    (List.replicate (k + 1) a).dedup = [a] := by
  induction k with
  | zero => rfl
  | succ n ih =>
    rw [List.replicate_succ, List.dedup_cons_of_mem (by simp [List.mem_replicate])]
    exact ih

/-- Deduplicating two adjacent nonempty constant runs of different colours. -/
lemma dedup_rep_append (m k : Nat) (a b : Colour) (hab : a ≠ b) :
    (List.replicate (m + 1) a ++ List.replicate (k + 1) b).dedup = [a, b] := by
  induction m with
  | zero =>
    rw [show List.replicate 1 a ++ List.replicate (k + 1) b =
      a :: List.replicate (k + 1) b from rfl]
    rw [List.dedup_cons_of_not_mem (by simp [List.mem_replicate, hab]), dedup_replicate]
  | succ n ih =>
    rw [List.replicate_succ, List.cons_append, List.dedup_cons_of_mem (by
      refine List.mem_append_left _ ?_
      simp [List.mem_replicate])]
    exact ih

/-- The distinct non-background colours of the synthetic chart. -/
lemma grid100_distinct : distinctColours grid100 = [redP, blueP] := by
  unfold distinctColours
  rw [grid100_nonBg, show (6000 : Nat) = 5999 + 1 from rfl,
    show (4000 : Nat) = 3999 + 1 from rfl]
  exact dedup_rep_append 5999 3999 redP blueP (by decide)

/-- Red occurs 6000 times among the non-background pixels. -/
lemma grid100_count_red : countColour grid100 redP = 6000 := by
  unfold countColour
  rw [grid100_nonBg, List.count_append, List.count_replicate_self,
    List.count_eq_zero_of_not_mem (by
      intro hmem
      rw [List.mem_replicate] at hmem
      exact absurd hmem.2 (by decide))]

/-- Blue occurs 4000 times among the non-background pixels. -/
lemma grid100_count_blue : countColour grid100 blueP = 4000 := by
  unfold countColour
  rw [grid100_nonBg, List.count_append, List.count_replicate_self,
    List.count_eq_zero_of_not_mem (by
      intro hmem
      rw [List.mem_replicate] at hmem
      exact absurd hmem.2 (by decide))]

/-- The ranked colour table of the synthetic chart: red (6000) before blue
(4000). -/
lemma grid100_ranked : rankedColours grid100 = [(redP, 6000), (blueP, 4000)] := by
  unfold rankedColours colourTable sortedColours
  rw [grid100_distinct,
    show List.insertionSort colourLe [redP, blueP] = [blueP, redP] from by decide,
    List.map_cons, List.map_cons, List.map_nil, grid100_count_red, grid100_count_blue]
  decide

/-- The finder's result when the ranked list starts with two known entries. -/
lemma find_bar_colours_of_ranked (g : PixelGrid) (a b : Colour × Nat)
    (rest : List (Colour × Nat)) (h : rankedColours g = a :: b :: rest) :
    find_bar_colours g = .ok (a.1, b.1) := by
  unfold find_bar_colours
  rw [h]

/-- On the synthetic chart the finder returns red first, blue second. -/
lemma grid100_colours : find_bar_colours grid100 = .ok (redP, blueP) :=
  find_bar_colours_of_ranked grid100 (redP, 6000) (blueP, 4000) [] grid100_ranked

/-- The synthetic chart has two distinct non-background colours. -/
lemma grid100_two : 2 ≤ (distinctColours grid100).length := by
  rw [grid100_distinct]
  decide

/-- C3 witness: the 100×100 chart with 6000 red pixels, 4000 blue pixels and
the remainder white satisfies the hypothesis, the general theorem applies, and
the finder concretely returns red first, blue second. -/
theorem c3_witness :
    2 ≤ (distinctColours grid100).length ∧
    find_bar_colours grid100 = .ok (redP, blueP) ∧
    (∃ c1 c2 : Colour,
      find_bar_colours grid100 = .ok (c1, c2) ∧
      c1 ≠ c2 ∧
      c1 ∈ distinctColours grid100 ∧ c2 ∈ distinctColours grid100 ∧
      countColour grid100 c2 ≤ countColour grid100 c1 ∧
      (∀ c ∈ distinctColours grid100, countColour grid100 c ≤ countColour grid100 c1) ∧
      (∀ c ∈ distinctColours grid100, c ≠ c1 →
        countColour grid100 c ≤ countColour grid100 c2)) :=
  ⟨grid100_two, grid100_colours, c3_theorem grid100 grid100_two⟩

/-- A fold of `min` never exceeds its initial value. -/
lemma foldl_min_le_init {α : Type} (f : α → Nat) (l : List α) (i : Nat) :
    l.foldl (fun a c => min a (f c)) i ≤ i := by
  induction l generalizing i with
  | nil => exact Nat.le_refl i
  | cons a t ih => exact Nat.le_trans (ih (min i (f a))) (Nat.min_le_left i (f a))

/-- A fold of `min` is below the value of every list element. -/
lemma foldl_min_le_mem {α : Type} (f : α → Nat) (l : List α) (i : Nat) (c : α)
    (hc : c ∈ l) : l.foldl (fun a c => min a (f c)) i ≤ f c := by
  induction l generalizing i with
  | nil => cases hc
  | cons a t ih =>
    rcases List.mem_cons.mp hc with rfl | hc2
    · exact Nat.le_trans (foldl_min_le_init f t (min i (f c)))
        (Nat.min_le_right i (f c))
    · exact ih (min i (f a)) hc2

/-- A fold of `min` is its initial value or the value of some element. -/
lemma foldl_min_attained {α : Type} (f : α → Nat) (l : List α) (i : Nat) :
    l.foldl (fun a c => min a (f c)) i = i ∨
    ∃ c ∈ l, l.foldl (fun a c => min a (f c)) i = f c := by
  induction l generalizing i with
  | nil => exact Or.inl rfl
  | cons a t ih =>
    rcases ih (min i (f a)) with heq | ⟨c, hcm, heq⟩
    · rcases min_choice i (f a) with hm | hm
      · exact Or.inl (by rw [List.foldl_cons, heq, hm])
      · exact Or.inr ⟨a, List.mem_cons_self a t, by rw [List.foldl_cons, heq, hm]⟩
    · exact Or.inr ⟨c, List.mem_cons_of_mem a hcm, heq⟩

/-- A fold of `max` is at least its initial value. -/
lemma le_foldl_max_init {α : Type} (f : α → Nat) (l : List α) (i : Nat) :
    i ≤ l.foldl (fun a c => max a (f c)) i := by
  induction l generalizing i with
  | nil => exact Nat.le_refl i
  | cons a t ih => exact Nat.le_trans (Nat.le_max_left i (f a)) (ih (max i (f a)))

/-- A fold of `max` dominates the value of every list element. -/
lemma le_foldl_max_mem {α : Type} (f : α → Nat) (l : List α) (i : Nat) (c : α)
    (hc : c ∈ l) : f c ≤ l.foldl (fun a c => max a (f c)) i := by
  induction l generalizing i with
  | nil => cases hc
  | cons a t ih =>
    rcases List.mem_cons.mp hc with rfl | hc2
    · exact Nat.le_trans (Nat.le_max_right i (f c)) (le_foldl_max_init f t (max i (f c)))
    · exact ih (max i (f a)) hc2

/-- A fold of `max` is its initial value or the value of some element. -/
lemma foldl_max_attained {α : Type} (f : α → Nat) (l : List α) (i : Nat) :
    l.foldl (fun a c => max a (f c)) i = i ∨
    ∃ c ∈ l, l.foldl (fun a c => max a (f c)) i = f c := by
  induction l generalizing i with
  | nil => exact Or.inl rfl
  | cons a t ih =>
    rcases ih (max i (f a)) with heq | ⟨c, hcm, heq⟩
    · rcases max_choice i (f a) with hm | hm
      · exact Or.inl (by rw [List.foldl_cons, heq, hm])
      · exact Or.inr ⟨a, List.mem_cons_self a t, by rw [List.foldl_cons, heq, hm]⟩
    · exact Or.inr ⟨c, List.mem_cons_of_mem a hcm, heq⟩

/-- A defined pixel lookup implies the row index is in range. -/
lemma getPixel_row_lt (g : PixelGrid) (y x : Nat) (p : Colour)
    (h : getPixel g y x = some p) : y < g.length := by
  unfold getPixel at h
  by_contra hcon
  push_neg at hcon
  rw [List.getElem?_eq_none hcon] at h
  simp at h

/-- A defined pixel lookup implies the column index is in its row's range. -/
lemma getPixel_col_lt (g : PixelGrid) (y x : Nat) (p : Colour)
    (h : getPixel g y x = some p) : x < (g[y]?.getD []).length := by
  unfold getPixel at h
  by_contra hcon
  push_neg at hcon
  rw [List.getElem?_eq_none hcon] at h
  simp at h

/-- Coordinate membership in the non-white scan. -/
lemma mem_nonWhiteCoords (g : PixelGrid) (y x : Nat) :
    (y, x) ∈ nonWhiteCoords g ↔ ∃ p, getPixel g y x = some p ∧ nonWhite p = true := by
  unfold nonWhiteCoords
  rw [List.mem_flatten]
  constructor
  · rintro ⟨l, hl, hmem⟩
    rw [List.mem_map] at hl
    obtain ⟨y0, _, rfl⟩ := hl
    rw [List.mem_filterMap] at hmem
    obtain ⟨x0, _, hfx⟩ := hmem
    rcases hp : getPixel g y0 x0 with _ | p
    · rw [hp] at hfx
      simp at hfx
    · rw [hp] at hfx
      have hfx2 : (if nonWhite p = true then some (y0, x0) else none) = some (y, x) := hfx
      by_cases hw : nonWhite p
      · rw [if_pos hw] at hfx2
        obtain ⟨rfl, rfl⟩ : y0 = y ∧ x0 = x := by
          have hyx := Option.some.inj hfx2
          exact ⟨congrArg Prod.fst hyx, congrArg Prod.snd hyx⟩
        exact ⟨p, hp, hw⟩
      · rw [if_neg hw] at hfx2
        simp at hfx2
  · rintro ⟨p, hp, hw⟩
    refine ⟨(List.range ((g[y]?.getD []).length)).filterMap (fun x =>
      match getPixel g y x with
      | some p => if nonWhite p = true then some (y, x) else none
      | none => none), ?_, ?_⟩
    · rw [List.mem_map]
      refine ⟨y, ?_, rfl⟩
      rw [List.mem_range]
      exact getPixel_row_lt g y x p hp
    · rw [List.mem_filterMap]
      refine ⟨x, ?_, ?_⟩
      · rw [List.mem_range]
        exact getPixel_col_lt g y x p hp
      · rw [hp]
        show (if nonWhite p = true then some (y, x) else none) = some (y, x)
        rw [if_pos hw]

/-- The top edge is at or above every non-white row. -/
lemma cropTop_le_of_mem (g : PixelGrid) (c : Nat × Nat) (h : c ∈ nonWhiteCoords g) :
    cropTop g ≤ c.1 :=
  foldl_min_le_mem (fun c => c.1) (nonWhiteCoords g) g.length c h

/-- The left edge is at or before every non-white column. -/
lemma cropLeft_le_of_mem (g : PixelGrid) (c : Nat × Nat) (h : c ∈ nonWhiteCoords g) :
    cropLeft g ≤ c.2 :=
  foldl_min_le_mem (fun c => c.2) (nonWhiteCoords g) (gridWidth g) c h

/-- The bottom edge is at or below every non-white row. -/
lemma le_cropBottom_of_mem (g : PixelGrid) (c : Nat × Nat) (h : c ∈ nonWhiteCoords g) :
    c.1 ≤ cropBottom g :=
  le_foldl_max_mem (fun c => c.1) (nonWhiteCoords g) 0 c h

/-- The right edge is at or after every non-white column. -/
lemma le_cropRight_of_mem (g : PixelGrid) (c : Nat × Nat) (h : c ∈ nonWhiteCoords g) :
    c.2 ≤ cropRight g :=
  le_foldl_max_mem (fun c => c.2) (nonWhiteCoords g) 0 c h

/-- With a non-white pixel present, the no-pixel guard of
`crop_white_background` is off. -/
lemma crop_guard_false (g : PixelGrid) (y x : Nat) (h : (y, x) ∈ nonWhiteCoords g) :
    ¬(cropRight g < cropLeft g ∨ cropBottom g < cropTop g) := by
  have h1 := cropTop_le_of_mem g (y, x) h
  have h2 := cropLeft_le_of_mem g (y, x) h
  have h3 := le_cropBottom_of_mem g (y, x) h
  have h4 := le_cropRight_of_mem g (y, x) h
  simp only at h1 h2 h3 h4
  omega

/-- Pixel lookup inside the padded crop window. -/
lemma cropRegion_getPixel (g : PixelGrid) (left top right bottom dy dx : Nat)
    (hdy : dy < bottom + 1 - top) (hdx : dx < right + 1 - left) :
    getPixel (cropRegion g left top right bottom) dy dx =
      some ((getPixel g (top + dy) (left + dx)).getD blackPixel) := by
  unfold cropRegion getPixel
  rw [List.getElem?_map, List.getElem?_range hdy, Option.map_some', Option.getD_some,
    List.getElem?_map, List.getElem?_range hdx, Option.map_some']

/-- Every non-white pixel of the input appears in the crop, at its offset
position, and its coordinates lie between the crop edges. -/
lemma crop_inside (g : PixelGrid) (y x : Nat) (p : Colour)
    (hp : getPixel g y x = some p) (hw : nonWhite p = true) :
    cropTop g ≤ y ∧ y ≤ cropBottom g ∧ cropLeft g ≤ x ∧ x ≤ cropRight g ∧
    getPixel (crop_white_background g) (y - cropTop g) (x - cropLeft g) = some p := by
  have hmem : (y, x) ∈ nonWhiteCoords g := (mem_nonWhiteCoords g y x).mpr ⟨p, hp, hw⟩
  have h1 := cropTop_le_of_mem g (y, x) hmem
  have h2 := cropLeft_le_of_mem g (y, x) hmem
  have h3 := le_cropBottom_of_mem g (y, x) hmem
  have h4 := le_cropRight_of_mem g (y, x) hmem
  simp only at h1 h2 h3 h4
  refine ⟨h1, h3, h2, h4, ?_⟩
  unfold crop_white_background
  rw [if_neg (crop_guard_false g y x hmem)]
  rw [cropRegion_getPixel g _ _ _ _ _ _ (by omega) (by omega)]
  rw [show cropTop g + (y - cropTop g) = y by omega,
    show cropLeft g + (x - cropLeft g) = x by omega, hp, Option.getD_some]

/-- The crop has `bottom + 1 - top` rows when the guard is off. -/
lemma crop_length (g : PixelGrid)
    (h : ¬(cropRight g < cropLeft g ∨ cropBottom g < cropTop g)) :
    (crop_white_background g).length = cropBottom g + 1 - cropTop g := by
  unfold crop_white_background
  rw [if_neg h]
  unfold cropRegion
  rw [List.length_map, List.length_range]

/-- C10 counterexample: on the 0×0 image (no rows) every pixel vacuously has
all channels above 250, yet `crop_white_background` does not return the input
with dimensions unchanged: the guard `right < left or bottom < top` is false
(all four fold results are 0), so the function crops to the box (0,0,1,1) and
PIL pads the out-of-image area, producing a 1×1 black image. -/
theorem c10_counterexample :
    nonWhiteCoords ([] : PixelGrid) = [] ∧
    crop_white_background ([] : PixelGrid) = [[blackPixel]] ∧
    (crop_white_background ([] : PixelGrid)).length ≠ ([] : PixelGrid).length := by
  refine ⟨rfl, ?_, ?_⟩
  · rfl
  · decide

/-- C10 (amended): for a rectangular image with at least one pixel having some
channel at most 250, the function crops to the minimal bounding box of those
pixels: the crop retains every non-pure-white pixel at its offset position,
each of its four border rows/columns holds a non-pure-white pixel, and its row
count is `bottom + 1 - top`.  If every pixel has all three channels above 250
the image is returned unchanged, except for the degenerate 0×0 image, which
yields a 1×1 black image through PIL's padded crop of the box (0,0,1,1). -/
theorem c10_theorem (g : PixelGrid) (hrect : ∀ row ∈ g, row.length = gridWidth g) :
    (nonWhiteCoords g ≠ [] →
      (∀ y x p, getPixel g y x = some p → nonWhite p = true →
        cropTop g ≤ y ∧ y ≤ cropBottom g ∧ cropLeft g ≤ x ∧ x ≤ cropRight g ∧
        getPixel (crop_white_background g) (y - cropTop g) (x - cropLeft g) = some p) ∧
      (∃ x p, getPixel (crop_white_background g) 0 x = some p ∧ nonWhite p = true) ∧
      (∃ x p, getPixel (crop_white_background g) (cropBottom g - cropTop g) x = some p ∧
        nonWhite p = true) ∧
      (∃ y p, getPixel (crop_white_background g) y 0 = some p ∧ nonWhite p = true) ∧
      (∃ y p, getPixel (crop_white_background g) y (cropRight g - cropLeft g) = some p ∧
        nonWhite p = true) ∧
      (crop_white_background g).length = cropBottom g + 1 - cropTop g) ∧
    (nonWhiteCoords g = [] → g ≠ [] → crop_white_background g = g) ∧
    (nonWhiteCoords g = [] → g = [] → crop_white_background g = [[blackPixel]]) := by
  refine ⟨?_, ?_, ?_⟩
  · intro hne
    obtain ⟨c0, hc0⟩ := List.exists_mem_of_ne_nil _ hne
    obtain ⟨p0, hp0, hw0⟩ := (mem_nonWhiteCoords g c0.1 c0.2).mp hc0
    have hguard := crop_guard_false g c0.1 c0.2 hc0
    have hTop : ∃ c ∈ nonWhiteCoords g, cropTop g = c.1 := by
      rcases foldl_min_attained (fun c => c.1) (nonWhiteCoords g) g.length with heq | h
      · exfalso
        have h1 := cropTop_le_of_mem g c0 hc0
        have h2 := getPixel_row_lt g c0.1 c0.2 p0 hp0
        have heq2 : cropTop g = g.length := heq
        omega
      · exact h
    have hBottom : ∃ c ∈ nonWhiteCoords g, cropBottom g = c.1 := by
      rcases foldl_max_attained (fun c => c.1) (nonWhiteCoords g) 0 with heq | h
      · have heq2 : cropBottom g = 0 := heq
        have h1 := le_cropBottom_of_mem g c0 hc0
        exact ⟨c0, hc0, by omega⟩
      · exact h
    have hLeft : ∃ c ∈ nonWhiteCoords g, cropLeft g = c.2 := by
      rcases foldl_min_attained (fun c => c.2) (nonWhiteCoords g) (gridWidth g) with heq | h
      · exfalso
        have heq2 : cropLeft g = gridWidth g := heq
        have h1 := cropLeft_le_of_mem g c0 hc0
        have h2 := getPixel_col_lt g c0.1 c0.2 p0 hp0
        have hrow : (g[c0.1]?.getD []).length = gridWidth g := by
          rcases hrowq : g[c0.1]? with _ | row
          · rw [hrowq] at h2
            exact absurd h2 (by simp)
          · exact hrect row (List.getElem?_mem hrowq)
        omega
      · exact h
    have hRight : ∃ c ∈ nonWhiteCoords g, cropRight g = c.2 := by
      rcases foldl_max_attained (fun c => c.2) (nonWhiteCoords g) 0 with heq | h
      · have heq2 : cropRight g = 0 := heq
        have h1 := le_cropRight_of_mem g c0 hc0
        exact ⟨c0, hc0, by omega⟩
      · exact h
    refine ⟨fun y x p hp hw => crop_inside g y x p hp hw, ?_, ?_, ?_, ?_,
      crop_length g hguard⟩
    · obtain ⟨cT, hcT, heqT⟩ := hTop
      obtain ⟨pT, hpT, hwT⟩ := (mem_nonWhiteCoords g cT.1 cT.2).mp hcT
      have hins := (crop_inside g cT.1 cT.2 pT hpT hwT).2.2.2.2
      rw [show cT.1 - cropTop g = 0 by omega] at hins
      exact ⟨cT.2 - cropLeft g, pT, hins, hwT⟩
    · obtain ⟨cB, hcB, heqB⟩ := hBottom
      obtain ⟨pB, hpB, hwB⟩ := (mem_nonWhiteCoords g cB.1 cB.2).mp hcB
      have hins := (crop_inside g cB.1 cB.2 pB hpB hwB).2.2.2.2
      rw [← heqB] at hins
      exact ⟨cB.2 - cropLeft g, pB, hins, hwB⟩
    · obtain ⟨cL, hcL, heqL⟩ := hLeft
      obtain ⟨pL, hpL, hwL⟩ := (mem_nonWhiteCoords g cL.1 cL.2).mp hcL
      have hins := (crop_inside g cL.1 cL.2 pL hpL hwL).2.2.2.2
      rw [show cL.2 - cropLeft g = 0 by omega] at hins
      exact ⟨cL.1 - cropTop g, pL, hins, hwL⟩
    · obtain ⟨cR, hcR, heqR⟩ := hRight
      obtain ⟨pR, hpR, hwR⟩ := (mem_nonWhiteCoords g cR.1 cR.2).mp hcR
      have hins := (crop_inside g cR.1 cR.2 pR hpR hwR).2.2.2.2
      rw [← heqR] at hins
      exact ⟨cR.1 - cropTop g, pR, hins, hwR⟩
  · intro h0 hg
    have hB : cropBottom g = 0 := by
      unfold cropBottom
      rw [h0]
      rfl
    have hT : cropTop g = g.length := by
      unfold cropTop
      rw [h0]
      rfl
    have hpos : 0 < g.length := List.length_pos.mpr hg
    unfold crop_white_background
    rw [if_pos (Or.inr (by omega))]
  · intro _ hg
    subst hg
    rfl

/-- C10 witness: a 2×2 image with one red pixel has a nonempty coordinate scan
and a non-white pixel on the crop's top border, and a 2×1 all-white image is
returned unchanged. -/
theorem c10_witness :
    nonWhiteCoords ([[whiteP, redP], [whiteP, whiteP]] : PixelGrid) ≠ [] ∧
    (∃ x p, getPixel (crop_white_background [[whiteP, redP], [whiteP, whiteP]]) 0 x =
      some p ∧ nonWhite p = true) ∧
    crop_white_background ([[whiteP], [whiteP]] : PixelGrid) = [[whiteP], [whiteP]] := by
  have hne : nonWhiteCoords ([[whiteP, redP], [whiteP, whiteP]] : PixelGrid) ≠ [] := by
    decide
  refine ⟨hne, ((c10_theorem [[whiteP, redP], [whiteP, whiteP]] (by decide)).1 hne).2.1, ?_⟩
  exact (c10_theorem [[whiteP], [whiteP]] (by decide)).2.1 (by decide) (by decide)
